import Mathlib

/-!
Shallow embedding of the BSE scraper core (spider `bse_ipo_process_status.py`
and pipeline `pipelines_compact_r2.py`) together with theorems settling the
frozen specification claims.  Python strings are modelled as Lean `String`
(character lists); Python regex/str operations are modelled over the ASCII
range, which is the range the scraped portal and the claims exercise.
-/

namespace BseScraper

/-- ASCII whitespace, the characters matched by Python's `\s` and stripped by
`str.strip()` in the ASCII range. -/
def isPySpace (c : Char) : Bool :=
  c = ' ' || c = '\t' || c = '\n' || c = '\r' || c = Char.ofNat 11 || c = Char.ofNat 12

/-- Python `str.strip()` on a character list (ASCII whitespace). -/
def pystrip (l : List Char) : List Char :=
  ((l.dropWhile isPySpace).reverse.dropWhile isPySpace).reverse

/-- Replace every maximal run of whitespace by the single character `rep`;
`sawSpace` records whether we are inside a whitespace run.  Models Python
`re.sub(r"\s+", rep, s)`. -/
def collapseAux (rep : Char) : Bool → List Char → List Char
  | _, [] => []
  | sawSpace, c :: rest =>
    if isPySpace c then
      if sawSpace then collapseAux rep true rest
      else rep :: collapseAux rep true rest
    else c :: collapseAux rep false rest

/-- Models `re.sub(r"\s+", rep, s)` on a whole list. -/
def collapseWs (rep : Char) (l : List Char) : List Char :=
  collapseAux rep false l

/-- The spider's `_norm`: `re.sub(r"\s+", " ", (s or "").strip())`. -/
def pynorm (s : String) : String :=
  ⟨collapseWs ' ' (pystrip s.data)⟩

/-- The spider's `_clean_header`: normalize whitespace, then drop one trailing
colon (`re.sub(r":\s*$", "", s)`; after normalization there is no trailing
whitespace, so this removes at most one final `:`). -/
def clean_header (s : String) : String :=
  let t := collapseWs ' ' (pystrip s.data)
  ⟨if t.getLast? = some ':' then t.dropLast else t⟩

/-- ASCII lower-casing, modelling `str.lower()` on the ASCII range. -/
def pylower (s : String) : String :=
  ⟨s.data.map Char.toLower⟩

/-- Python word character `\w` in the ASCII range: letters, digits, underscore. -/
def isWordChar (c : Char) : Bool :=
  c.isAlpha || c.isDigit || c = '_'

/-- The character pipeline of `slugify`: strip, delete characters outside
`\w`, `\s`, `-`, collapse whitespace runs to `-`, strip leading and trailing
`-`. -/
def slugifyCore (s : Option String) : List Char :=
  (((collapseWs '-'
      ((pystrip (s.getD "").data).filter
        (fun c => isWordChar c || isPySpace c || c = '-'))).dropWhile
      (· = '-')).reverse.dropWhile (· = '-')).reverse

/-- Pipeline `slugify`: the character pipeline with the `"unknown"` fallback
on empty output. -/
def slugify (s : Option String) : String :=
  if slugifyCore s = [] then "unknown" else ⟨slugifyCore s⟩

/-- A calendar date as produced by Python's `datetime.date`. -/
structure PyDate where
  year : Nat
  month : Nat
  day : Nat
deriving DecidableEq

/-- Gregorian leap-year rule used by `datetime`. -/
def isLeap (y : Nat) : Bool :=
  (y % 4 = 0 && y % 100 ≠ 0) || y % 400 = 0

/-- Days in a month, as validated by the `datetime` constructor. -/
def daysInMonth (y m : Nat) : Nat :=
  if m = 2 then (if isLeap y then 29 else 28)
  else if m = 4 ∨ m = 6 ∨ m = 9 ∨ m = 11 then 30
  else 31

/-- Validity check performed by the `datetime.date` constructor
(`MINYEAR = 1`, `MAXYEAR = 9999`). -/
def isValidDate (y m d : Nat) : Bool :=
  1 ≤ y && y ≤ 9999 && 1 ≤ m && m ≤ 12 && 1 ≤ d && d ≤ daysInMonth y m

/-- Build a date exactly when the `datetime.date` constructor would not raise. -/
def mkDate (y m d : Nat) : Option PyDate :=
  if isValidDate y m d then some ⟨y, m, d⟩ else none

/-- Numeric value of a digit list (most significant first). -/
def digitsVal (l : List Char) : Nat :=
  l.foldl (fun a c => 10 * a + (c.toNat - 48)) 0

/-- Take up to two leading digits, greedily, as `strptime`'s `%d`/`%m`
alternation does. -/
def takeDigits2 : List Char → List Char × List Char
  | [] => ([], [])
  | [a] => if a.isDigit then ([a], []) else ([], [a])
  | a :: b :: rest =>
    if a.isDigit then
      if b.isDigit then ([a, b], rest) else ([a], b :: rest)
    else ([], a :: b :: rest)

/-- Parse a 1-2 digit number constrained to `[lo, hi]` (`strptime` `%d`/`%m`).
Greedy two-digit matching is equivalent to the CPython regex alternation here
because every continuation in the used formats starts with a non-digit. -/
def parseN2 (lo hi : Nat) (l : List Char) : Option (Nat × List Char) :=
  let p := takeDigits2 l
  if p.1 = [] then none
  else
    let v := digitsVal p.1
    if lo ≤ v ∧ v ≤ hi then some (v, p.2) else none

/-- Parse exactly four digits (`strptime` `%Y`). -/
def parseYear4 : List Char → Option (Nat × List Char)
  | a :: b :: c :: d :: rest =>
    if a.isDigit && b.isDigit && c.isDigit && d.isDigit then
      some (digitsVal [a, b, c, d], rest)
    else none
  | _ => none

/-- Parse one exact literal character of a `strptime` format. -/
def parseLit (c : Char) : List Char → Option (List Char)
  | x :: rest => if x = c then some rest else none
  | [] => none

/-- A whitespace character in a `strptime` format matches one or more
whitespace characters of the input. -/
def parseSpaces (l : List Char) : Option (List Char) :=
  match l with
  | x :: rest => if isPySpace x then some (rest.dropWhile isPySpace) else none
  | [] => none

/-- English month abbreviations recognised by `%b` (case-insensitive). -/
def monthAbbrs : List (String × Nat) :=
  [("jan", 1), ("feb", 2), ("mar", 3), ("apr", 4), ("may", 5), ("jun", 6),
   ("jul", 7), ("aug", 8), ("sep", 9), ("oct", 10), ("nov", 11), ("dec", 12)]

/-- English full month names recognised by `%B` (case-insensitive). -/
def monthNames : List (String × Nat) :=
  [("january", 1), ("february", 2), ("march", 3), ("april", 4), ("may", 5),
   ("june", 6), ("july", 7), ("august", 8), ("september", 9), ("october", 10),
   ("november", 11), ("december", 12)]

/-- Parse a month name from a table of lowercase names (case-insensitive). -/
def parseMonthName (names : List (String × Nat)) (l : List Char) : Option (Nat × List Char) :=
  names.findSome? fun nm =>
    if nm.1.data.isPrefixOf (l.map Char.toLower) then
      some (nm.2, l.drop nm.1.length)
    else none

/-- Format parser for `strptime` with `"%Y-%m-%d"`, followed by date validation. -/
def fmtYmd (l : List Char) : Option PyDate :=
  match parseYear4 l with
  | none => none
  | some (y, l) =>
    match parseLit '-' l with
    | none => none
    | some l =>
      match parseN2 1 12 l with
      | none => none
      | some (m, l) =>
        match parseLit '-' l with
        | none => none
        | some l =>
          match parseN2 1 31 l with
          | none => none
          | some (d, l) => if l = [] then mkDate y m d else none

/-- Format parser for `strptime` with a `<day> <sep> <month> <sep> %Y` shape, parameterised by
the month parser and the separator parser. -/
def fmtDayMonthYear (pMonth : List Char → Option (Nat × List Char))
    (pSep : List Char → Option (List Char)) (l : List Char) : Option PyDate :=
  match parseN2 1 31 l with
  | none => none
  | some (d, l) =>
    match pSep l with
    | none => none
    | some l =>
      match pMonth l with
      | none => none
      | some (m, l) =>
        match pSep l with
        | none => none
        | some l =>
          match parseYear4 l with
          | none => none
          | some (y, l) => if l = [] then mkDate y m d else none

/-- Format parser for `strptime` with `"%d-%m-%Y"`. -/
def fmtDmyDash (l : List Char) : Option PyDate :=
  fmtDayMonthYear (parseN2 1 12) (parseLit '-') l

/-- Format parser for `strptime` with `"%d/%m/%Y"`. -/
def fmtDmySlash (l : List Char) : Option PyDate :=
  fmtDayMonthYear (parseN2 1 12) (parseLit '/') l

/-- Format parser for `strptime` with `"%d %b %Y"`. -/
def fmtDbY (l : List Char) : Option PyDate :=
  fmtDayMonthYear (parseMonthName monthAbbrs) parseSpaces l

/-- Format parser for `strptime` with `"%d %B %Y"`. -/
def fmtDBigY (l : List Char) : Option PyDate :=
  fmtDayMonthYear (parseMonthName monthNames) parseSpaces l

/-- Parse exactly two digits. -/
def parseDigits2 : List Char → Option (Nat × List Char)
  | a :: b :: rest =>
    if a.isDigit && b.isDigit then some (digitsVal [a, b], rest) else none
  | _ => none

/-- Validity of an ISO time suffix `HH:MM[:SS[.ffffff]]` as accepted by
`datetime.fromisoformat`. -/
def isoTimeOk (l : List Char) : Bool :=
  (do
    let (h, l) ← parseDigits2 l
    let l ← parseLit ':' l
    let (m, l) ← parseDigits2 l
    if h ≤ 23 ∧ m ≤ 59 then
      match l with
      | [] => some ()
      | _ => do
        let l ← parseLit ':' l
        let (s, l) ← parseDigits2 l
        if s ≤ 59 then
          match l with
          | [] => some ()
          | _ => do
            let l ← parseLit '.' l
            if l ≠ [] ∧ l.all Char.isDigit then some () else none
        else none
    else none).isSome

/-- Models `datetime.fromisoformat(s).date()` for its documented core forms:
`YYYY-MM-DD`, optionally followed by `T` or a space and a time
`HH:MM[:SS[.ffffff]]`.  (The full CPython grammar also accepts other shapes;
they do not affect the claims.) -/
def fromIsoDate (l : List Char) : Option PyDate :=
  match parseYear4 l with
  | none => none
  | some (y, l) =>
    match parseLit '-' l with
    | none => none
    | some l =>
      match parseDigits2 l with
      | none => none
      | some (m, l) =>
        match parseLit '-' l with
        | none => none
        | some l =>
          match parseDigits2 l with
          | none => none
          | some (d, l) =>
            match l with
            | [] => mkDate y m d
            | c :: rest =>
              if (c = 'T' ∨ c = ' ') ∧ isoTimeOk rest then mkDate y m d else none

/-- Pipeline `to_iso_date`: falsy input gives `None`; otherwise strip and try
the five `strptime` formats, then `fromisoformat`, returning `None` when every
parse fails. -/
def to_iso_date (s : Option String) : Option PyDate :=
  match s with
  | none => none
  | some str =>
    if str = "" then none
    else
      let t := pystrip str.data
      (fmtYmd t).orElse fun _ =>
      (fmtDmyDash t).orElse fun _ =>
      (fmtDmySlash t).orElse fun _ =>
      (fmtDbY t).orElse fun _ =>
      (fmtDBigY t).orElse fun _ =>
      fromIsoDate t

/-- Python `float(t)` on a cleaned numeric string (digits, `.`, `-` only),
with the exact value kept as a rational.  Only emptiness/zero-ness of the
result is consumed by the pipeline. -/
def parseUnsignedFloat (l : List Char) : Option ℚ :=
  let intPart := l.takeWhile Char.isDigit
  let rest := l.dropWhile Char.isDigit
  match rest with
  | [] => if intPart = [] then none else some (digitsVal intPart : ℚ)
  | c :: frac =>
    if c = '.' ∧ frac.all Char.isDigit ∧ (intPart ≠ [] ∨ frac ≠ []) then
      some ((digitsVal intPart : ℚ) + (digitsVal frac : ℚ) / (10 : ℚ) ^ frac.length)
    else none

/-- Signed version of `parseUnsignedFloat` (a single leading `-` allowed). -/
def parsePyFloat : List Char → Option ℚ
  | '-' :: rest => (parseUnsignedFloat rest).map (fun q => -q)
  | l => parseUnsignedFloat l

/-- Pipeline `coerce_float`: keep only `[\d.\-]`, then `float(t)` when the
remainder is non-empty and well-formed, else `None`. -/
def coerce_float (s : Option String) : Option ℚ :=
  match s with
  | none => none
  | some str =>
    let t := str.data.filter (fun c => c.isDigit || c = '.' || c = '-')
    if t = [] then none else parsePyFloat t

/-- UTF-8 encoding of one code point (`url.encode("utf-8")`). -/
def utf8Bytes (c : Char) : List Nat :=
  let n := c.toNat
  if n < 128 then [n]
  else if n < 2048 then [192 + n / 64, 128 + n % 64]
  else if n < 65536 then [224 + n / 4096, 128 + (n / 64) % 64, 128 + n % 64]
  else [240 + n / 262144, 128 + (n / 4096) % 64, 128 + (n / 64) % 64, 128 + n % 64]

/-- UTF-8 byte sequence of a string. -/
def strBytes (s : String) : List Nat :=
  (s.data.map utf8Bytes).flatten

/-- Truncation to a 32-bit word. -/
def w32 (n : Nat) : Nat := n % 4294967296

/-- Left rotation of a 32-bit word by `b` places. -/
def rotl32 (b n : Nat) : Nat :=
  w32 (n * 2 ^ b) + n / 2 ^ (32 - b)

/-- SHA-1 padding: append `0x80`, zero bytes to 56 mod 64, and the 64-bit
big-endian bit length. -/
def sha1pad (msg : List Nat) : List Nat :=
  let len := msg.length
  let z := (56 + 64 - (len + 1) % 64) % 64
  let bitLen := 8 * len
  msg ++ [128] ++ List.replicate z 0 ++
    (List.range 8).map (fun i => bitLen / 2 ^ (8 * (7 - i)) % 256)

/-- Split a byte list into 64-byte chunks. -/
def chunks64 (l : List Nat) : List (List Nat) :=
  if h : l = [] then []
  else
    l.take 64 :: chunks64 (l.drop 64)
termination_by l.length
decreasing_by
  simp only [List.length_drop]
  exact Nat.sub_lt (List.length_pos.mpr h) (by norm_num)

/-- Big-endian 32-bit words from a byte list. -/
def bytesToWords : List Nat → List Nat
  | a :: b :: c :: d :: rest => (((a * 256 + b) * 256 + c) * 256 + d) :: bytesToWords rest
  | _ => []

/-- Message-schedule extension of a 16-word block to 80 words. -/
def sha1Extend (ws : List Nat) : List Nat :=
  (List.range 64).foldl
    (fun acc _ =>
      let n := acc.length
      let x := Nat.xor (Nat.xor (acc.getD (n - 3) 0) (acc.getD (n - 8) 0))
                 (Nat.xor (acc.getD (n - 14) 0) (acc.getD (n - 16) 0))
      acc ++ [rotl32 1 x])
    ws

/-- Round function of SHA-1. -/
def sha1F (t b c d : Nat) : Nat :=
  if t < 20 then Nat.lor (Nat.land b c) (Nat.land (Nat.xor b 4294967295) d)
  else if t < 40 then Nat.xor (Nat.xor b c) d
  else if t < 60 then Nat.lor (Nat.lor (Nat.land b c) (Nat.land b d)) (Nat.land c d)
  else Nat.xor (Nat.xor b c) d

/-- Round constants of SHA-1. -/
def sha1K (t : Nat) : Nat :=
  if t < 20 then 1518500249
  else if t < 40 then 1859775393
  else if t < 60 then 2400959708
  else 3395469782

/-- One SHA-1 block compression. -/
def sha1Compress (h : Nat × Nat × Nat × Nat × Nat) (chunk : List Nat) :
    Nat × Nat × Nat × Nat × Nat :=
  let w := sha1Extend (bytesToWords chunk)
  let fin := w.enum.foldl
    (fun (st : Nat × Nat × Nat × Nat × Nat) tw =>
      let tmp := w32 (rotl32 5 st.1 + sha1F tw.1 st.2.1 st.2.2.1 st.2.2.2.1 +
                      st.2.2.2.2 + sha1K tw.1 + tw.2)
      (tmp, st.1, rotl32 30 st.2.1, st.2.2.1, st.2.2.2.1))
    (h.1, h.2.1, h.2.2.1, h.2.2.2.1, h.2.2.2.2)
  (w32 (h.1 + fin.1), w32 (h.2.1 + fin.2.1), w32 (h.2.2.1 + fin.2.2.1),
   w32 (h.2.2.2.1 + fin.2.2.2.1), w32 (h.2.2.2.2 + fin.2.2.2.2))

/-- Big-endian bytes of one 32-bit word. -/
def wordBytes (w : Nat) : List Nat :=
  [w / 16777216 % 256, w / 65536 % 256, w / 256 % 256, w % 256]

/-- Full SHA-1 digest (20 bytes) of a byte message. -/
def sha1Digest (msg : List Nat) : List Nat :=
  let h := (chunks64 (sha1pad msg)).foldl sha1Compress
    (1732584193, 4023233417, 2562383102, 271733878, 3285377520)
  (([h.1, h.2.1, h.2.2.1, h.2.2.2.1, h.2.2.2.2]).map wordBytes).flatten

/-- Lowercase hexadecimal digit. -/
def hexDigit (n : Nat) : Char :=
  if n < 10 then Char.ofNat (48 + n) else Char.ofNat (87 + n)

/-- Two-character lowercase hexadecimal rendering of a byte. -/
def byteHex (b : Nat) : List Char :=
  [hexDigit (b / 16), hexDigit (b % 16)]

/-- Truncated hex digest `hashlib.sha1(url.encode("utf-8")).hexdigest()[:6]`. -/
def sha1hex6 (s : String) : String :=
  ⟨(((sha1Digest (strBytes s)).take 3).map byteHex).flatten⟩

/-- Whether `pat` occurs as a contiguous sublist of `l` (Python's `in` on
strings, `re.search` of a literal). -/
def containsSub (pat : List Char) : List Char → Bool
  | [] => pat.isPrefixOf []
  | l@(_ :: rest) => pat.isPrefixOf l || containsSub pat rest

/-- Models `urllib.parse.urlparse(url).path` for common absolute URLs: strip
the fragment and query, then drop `scheme://netloc` when present.  (The full
CPython grammar covers more shapes; the pipeline only feeds it http(s)
document URLs.) -/
def urlPath (url : String) : String :=
  let l := url.data.takeWhile (fun c => c ≠ '#')
  let l := l.takeWhile (fun c => c ≠ '?')
  if containsSub [':', '/', '/'] l then
    ⟨((l.dropWhile (fun c => c ≠ ':')).drop 3).dropWhile (fun c => c ≠ '/')⟩
  else ⟨l⟩

/-- Lowercased URL path `urlparse(url).path.lower()` as inspected by `guess_ext_from_url`. -/
def lowerPathOf (url : String) : List Char :=
  (urlPath url).data.map Char.toLower

/-- Pipeline `guess_ext_from_url`: suffix test on the lowercased URL path. -/
def guess_ext_from_url (url : String) : String :=
  if ".pdf".data.isSuffixOf (lowerPathOf url) then ".pdf"
  else if ".docx".data.isSuffixOf (lowerPathOf url) then ".docx"
  else if ".xlsx".data.isSuffixOf (lowerPathOf url) then ".xlsx"
  else if ".xls".data.isSuffixOf (lowerPathOf url) then ".xls"
  else ".bin"

/-- The context dictionary attached to a media request by
`get_media_requests` (company name and raw date text). -/
structure FileCtx where
  company : Option String
  dt : Option String
deriving DecidableEq

/-- Zero-padded two-digit rendering. -/
def pad2 (n : Nat) : String :=
  if n < 10 then "0" ++ toString n else toString n

/-- Zero-padded four-digit rendering. -/
def pad4 (n : Nat) : String :=
  if n < 10 then "000" ++ toString n
  else if n < 100 then "00" ++ toString n
  else if n < 1000 then "0" ++ toString n
  else toString n

/-- Python `date.isoformat()`. -/
def isoformat (d : PyDate) : String :=
  pad4 d.year ++ "-" ++ pad2 d.month ++ "-" ++ pad2 d.day

/-- Line 98: `(request.meta.get("label") or "").strip() or "document"`. -/
def labelOf (label : Option String) : String :=
  if (⟨pystrip (label.getD "").data⟩ : String) = "" then "document"
  else ⟨pystrip (label.getD "").data⟩

/-- Line 99: `ctx.get("company") or "Unknown"`. -/
def companyOf (ctx : FileCtx) : String :=
  match ctx.company with
  | some c => if c = "" then "Unknown" else c
  | none => "Unknown"

/-- Lines 100-101: the date folder, ISO-formatted when the raw date text
parses, `"undated"` otherwise. -/
def dateFolderOf (dt : Option String) : String :=
  match to_iso_date dt with
  | some dd => isoformat dd
  | none => "undated"

/-- Pipeline `R2FilesPipeline.file_path`: derive the deterministic storage key
`issues/<slug(company)>/<iso date | "undated">/<slug(label)>_<hash6><ext>`. -/
def file_path (ctx : FileCtx) (label : Option String) (url : String) : String :=
  "issues/" ++ slugify (some (companyOf ctx)) ++ "/" ++ dateFolderOf ctx.dt ++ "/" ++
    slugify (some (labelOf label)) ++ "_" ++ sha1hex6 url ++ guess_ext_from_url url

/-- Python truthiness of an optional string (`if val:`): `None` and `""` are
falsy. -/
def truthyS : Option String → Bool
  | none => false
  | some s => s ≠ ""

/-- Python truthiness of an optional float (`if val:`): `None` and `0.0` are
falsy. -/
def truthyQ : Option ℚ → Bool
  | none => false
  | some q => q ≠ 0

/-- One entry of an item's `pdf_links` / `documents` list. -/
structure PdfLink where
  label : Option String
  url : Option String
deriving DecidableEq

/-- One entry of an item's `files` list as produced by the files pipeline. -/
structure FileEntry where
  url : Option String
  path : Option String
deriving DecidableEq

/-- One enriched entry of the stored payload's `pdfs` list. -/
structure PdfOut where
  label : Option String
  url : Option String
  cloud_key : Option String
  cloud_url : Option String
deriving DecidableEq

/-- The single JSONB payload column `{details, pdfs, links, files}`. -/
structure Payload where
  details : List (String × String)
  pdfs : List PdfOut
  links : List (String × String)
  files : List FileEntry
deriving DecidableEq

/-- A scraped item as consumed by `IssuesCompactDBPipeline.process_item`
(fields are the raw strings of the item adapter; an absent key is `none`). -/
structure Item where
  security_name : Option String
  exchange_platform : Option String
  type_of_issue : Option String
  type_of_issue_long : Option String
  issue_status : Option String
  security_type : Option String
  start_date : Option String
  end_date : Option String
  offer_price : Option String
  price_min : Option String
  price_max : Option String
  face_value : Option String
  list_url : Option String
  detail_url : Option String
  details : List (String × String)
  pdf_links : List PdfLink
  links : List (String × String)
  files : List FileEntry
deriving DecidableEq

/-- A stored `issues` row (the `IssueCompact` model; the surrogate `id` column
plays no role in the pipeline logic). -/
structure IssueRow where
  security_name : Option String
  exchange_platform : Option String
  type_of_issue : Option String
  type_of_issue_long : Option String
  issue_status : Option String
  security_type : Option String
  start_date : Option PyDate
  end_date : Option PyDate
  offer_price_raw : Option String
  price_min : Option ℚ
  price_max : Option ℚ
  face_value : Option String
  list_url : Option String
  detail_url : Option String
  payload : Payload
deriving DecidableEq

/-- Insert-or-replace in an insertion-ordered string map (Python `dict`
assignment). -/
def dictSetS (m : List (String × String)) (k v : String) : List (String × String) :=
  if m.any (fun kv => kv.1 = k) then
    m.map (fun kv => if kv.1 = k then (k, v) else kv)
  else m ++ [(k, v)]

/-- Pipeline `IssuesCompactDBPipeline._url_to_key`: map the url of every file entry
carrying both a truthy url and a truthy path to that path. -/
def url_to_key (files : List FileEntry) : List (String × String) :=
  files.foldl
    (fun m f =>
      match f.url, f.path with
      | some u, some k => if u ≠ "" ∧ k ≠ "" then dictSetS m u k else m
      | _, _ => m)
    []

/-- Python `dict.get` on the insertion-ordered map. -/
def lookupD (m : List (String × String)) (k : String) : Option String :=
  (m.find? (fun p => p.1 = k)).map (fun p => p.2)

/-- The `pdfs` enrichment loop of `process_item`: join each pdf link with its
uploaded storage key and public URL. -/
def buildPdfs (r2base : String) (pls : List PdfLink) (m : List (String × String)) :
    List PdfOut :=
  pls.map fun d =>
    let key := match d.url with
      | some u => lookupD m u
      | none => none
    let cloudUrl := match key with
      | some k => if k ≠ "" ∧ r2base ≠ "" then some (r2base ++ "/" ++ k) else none
      | none => none
    { label := d.label, url := d.url, cloud_key := key, cloud_url := cloudUrl }

/-- Lines 161-177 of the pipeline: build the `IssueCompact` object from the
item, normalising dates and prices and assembling the payload. -/
def mkIssueRow (r2base : String) (it : Item) : IssueRow :=
  { security_name := it.security_name
    exchange_platform := it.exchange_platform
    type_of_issue := it.type_of_issue
    type_of_issue_long := it.type_of_issue_long
    issue_status := it.issue_status
    security_type := it.security_type
    start_date := to_iso_date it.start_date
    end_date := to_iso_date it.end_date
    offer_price_raw := it.offer_price
    price_min := coerce_float it.price_min
    price_max := coerce_float it.price_max
    face_value := it.face_value
    list_url := it.list_url
    detail_url := it.detail_url
    payload :=
      { details := it.details
        pdfs := buildPdfs r2base it.pdf_links (url_to_key it.files)
        links := it.links
        files := it.files } }

/-- The identity key of a row: `(security_name, start_date, end_date,
detail_url)`. -/
def identityOf (r : IssueRow) : Option String × Option PyDate × Option PyDate × Option String :=
  (r.security_name, r.start_date, r.end_date, r.detail_url)

/-- The pipeline's identity lookup predicate.  SQLAlchemy compiles
`Column == None` to `IS NULL`, so a null part of the incoming key matches
exactly the stored nulls; equality on `Option` captures this. -/
def sameIdentity (a b : IssueRow) : Bool :=
  decide (identityOf a = identityOf b)

/-- The partial overwrite applied to an existing row (lines 189-196): each
allow-listed scalar field is replaced only by a truthy incoming value, and the
payload is replaced unconditionally. -/
def applyUpdate (existing obj : IssueRow) : IssueRow :=
  { existing with
    exchange_platform :=
      if truthyS obj.exchange_platform then obj.exchange_platform else existing.exchange_platform
    type_of_issue :=
      if truthyS obj.type_of_issue then obj.type_of_issue else existing.type_of_issue
    type_of_issue_long :=
      if truthyS obj.type_of_issue_long then obj.type_of_issue_long else existing.type_of_issue_long
    issue_status :=
      if truthyS obj.issue_status then obj.issue_status else existing.issue_status
    security_type :=
      if truthyS obj.security_type then obj.security_type else existing.security_type
    offer_price_raw :=
      if truthyS obj.offer_price_raw then obj.offer_price_raw else existing.offer_price_raw
    price_min :=
      if truthyQ obj.price_min then obj.price_min else existing.price_min
    price_max :=
      if truthyQ obj.price_max then obj.price_max else existing.price_max
    face_value :=
      if truthyS obj.face_value then obj.face_value else existing.face_value
    list_url :=
      if truthyS obj.list_url then obj.list_url else existing.list_url
    payload := obj.payload }

/-- The stored table, in insertion order. -/
abbrev DB := List IssueRow

/-- The error raised by `Query.one_or_none` when the identity filter matches
more than one stored row. -/
inductive DbError
  | multipleResultsFound
deriving DecidableEq

/-- Pipeline `IssuesCompactDBPipeline.process_item` on one item: build the object,
look up by identity, update the matched row or insert a new one.  The
`one_or_none` call raises when two stored rows share the identity. -/
def process_item (r2base : String) (db : DB) (it : Item) : Except DbError DB :=
  let obj := mkIssueRow r2base it
  let found := db.filter (fun r => sameIdentity r obj)
  match found with
  | [] => Except.ok (db ++ [obj])
  | [_] => Except.ok (db.map (fun r => if sameIdentity r obj then applyUpdate r obj else r))
  | _ => Except.error DbError.multipleResultsFound

/-- Number of stored rows matching the identity of `obj`. -/
def identityCount (db : DB) (obj : IssueRow) : Nat :=
  db.countP (fun r => sameIdentity r obj)

/-- A table cell (`td`): its text nodes in document order. -/
structure Cell where
  texts : List String
deriving DecidableEq

/-- A table as the spider's XPath queries see it: the text nodes of its
header (`th`) cells, its `tr[td]` rows, and the `__doPostBack` hrefs of its
pager links. -/
structure TableSel where
  headerTexts : List String
  rows : List (List Cell)
  pagerHrefs : List String
deriving DecidableEq

/-- A value stored in an emitted item dictionary. -/
inductive PyVal where
  | s (v : String)
  | n (v : Nat)
deriving DecidableEq

/-- Python `dict` assignment on an insertion-ordered association list. -/
def dictSet (m : List (String × PyVal)) (k : String) (v : PyVal) :
    List (String × PyVal) :=
  if m.any (fun kv => kv.1 = k) then
    m.map (fun kv => if kv.1 = k then (k, v) else kv)
  else m ++ [(k, v)]

/-- Cell text join `" ".join(td.xpath(".//text()").getall())`. -/
def cellJoinAll (c : Cell) : String :=
  String.intercalate " " c.texts

/-- The cleaned explicit headers:
`[self._clean_header(h) for h in table.xpath(".//tr[th]//th//text()[normalize-space()]")]`. -/
def explicitHeaders (t : TableSel) : List String :=
  (t.headerTexts.filter (fun x => pynorm x ≠ "")).map clean_header

/-- The fallback header candidate taken from the first row:
`[self._clean_header(x) for x in rows[0].xpath("./td//text()[normalize-space()]")]`. -/
def fallbackCand (t : TableSel) : List String :=
  match t.rows.head? with
  | some r => ((r.map (fun c => c.texts.filter (fun x => pynorm x ≠ ""))).flatten).map clean_header
  | none => []

/-- Whether a string contains an ASCII letter (`re.search(r"[A-Za-z]", c)`). -/
def hasLetter (s : String) : Bool :=
  s.data.any Char.isAlpha

/-- Header resolution of `_parse_table` (lines 175-186): explicit `th` headers
when present, otherwise the first row's texts when at least one looks
word-like. -/
def resolvedHeaders (t : TableSel) : List String :=
  let hs := explicitHeaders t
  if hs ≠ [] then hs
  else
    let cand := fallbackCand t
    if cand ≠ [] && cand.any hasLetter then cand else []

/-- The per-`td` first-row texts used for the drop-first comparison
(lines 191-192). -/
def firstCells (t : TableSel) : List String :=
  match t.rows.head? with
  | some r => r.map (fun c => clean_header (cellJoinAll c))
  | none => []

/-- The drop-first decision (lines 189-195): drop the first row exactly when
headers exist, rows exist, and the first row's cleaned texts equal the headers
cell-by-cell, case-insensitively. -/
def dropFirst (t : TableSel) (headers : List String) : Bool :=
  match t.rows.head? with
  | none => false
  | some _ =>
    headers ≠ [] &&
      (let fc := firstCells t
       fc.length = headers.length &&
         (fc.zip headers).all (fun p => pylower p.1 = pylower p.2))

/-- The normalized data cells of one row:
`[self._norm(" ".join(t.xpath(".//text()").getall())) for t in r.xpath("./td")]`. -/
def rowDataCells (r : List Cell) : List String :=
  r.map (fun c => pynorm (cellJoinAll c))

/-- The key assigned to cell position `i` (line 206): the non-empty header at
`i` when it exists, else the synthesized positional key. -/
def rowKey (headers : List String) (i : Nat) : String :=
  match headers.get? i with
  | some h => if h ≠ "" then h else "col_" ++ toString (i + 1)
  | none => "col_" ++ toString (i + 1)

/-- The data dictionary built for one row (lines 204-207). -/
def rowItemData (headers cells : List String) : List (String × PyVal) :=
  cells.enum.foldl (fun d iv => dictSet d (rowKey headers iv.1) (PyVal.s iv.2)) []

/-- The full emitted item (lines 204-212): data keys plus the four provenance
keys written into the same dictionary. -/
def rowItemFull (headers cells : List String) (sIdx : Nat) (sTitle : String)
    (pIdx : Nat) (url : String) : List (String × PyVal) :=
  dictSet (dictSet (dictSet (dictSet (rowItemData headers cells)
    "section" (PyVal.n sIdx))
    "section_title" (PyVal.s sTitle))
    "page_index" (PyVal.n pIdx))
    "source_url" (PyVal.s url)

/-- Whether a row survives the blank-row check (`if not any(cells): continue`). -/
def rowNonBlank (r : List Cell) : Bool :=
  (rowDataCells r).any (fun c => c ≠ "")

/-- Spider `_parse_table`: resolve headers, apply the drop-first rule, and emit one
item per non-blank remaining row. -/
def parse_table (t : TableSel) (sIdx : Nat) (sTitle : String) (pIdx : Nat)
    (url : String) : List (List (String × PyVal)) :=
  let headers := resolvedHeaders t
  let start := if dropFirst t headers then 1 else 0
  ((t.rows.drop start).filter rowNonBlank).map
    (fun r => rowItemFull headers (rowDataCells r) sIdx sTitle pIdx url)

/-- The list of keys assigned to the cells of a row, in position order. -/
def assignedKeys (headers cells : List String) : List String :=
  (List.range cells.length).map (rowKey headers)

/-- Single quote character (kept out of literals for tooling reasons). -/
def sq : Char := Char.ofNat 39

/-- Double quote character. -/
def dq : Char := Char.ofNat 34

/-- Match the tail of a `__doPostBack('target','argument')` call right after
the opening parenthesis: quote, the first capture (non-quote characters),
quote, comma, quote, the second capture, quote, closing parenthesis.  This is
the deterministic reading of the regex
`__doPostBack\((?:'|")([^'"]+)(?:'|"),(?:'|")([^'"]+)(?:'|")\)`. -/
def matchPostbackTail (l : List Char) : Option (List Char × List Char) :=
  match l with
  | q1 :: rest =>
    if q1 = sq ∨ q1 = dq then
      let t1 := rest.takeWhile (fun c => c ≠ sq ∧ c ≠ dq)
      match rest.drop t1.length with
      | _ :: afterQ =>
        if t1 ≠ [] then
          match afterQ with
          | ',' :: q2 :: rest2 =>
            if q2 = sq ∨ q2 = dq then
              let t2 := rest2.takeWhile (fun c => c ≠ sq ∧ c ≠ dq)
              match rest2.drop t2.length with
              | _ :: ')' :: _ => if t2 ≠ [] then some (t1, t2) else none
              | _ => none
            else none
          | _ => none
        else none
      | [] => none
    else none
  | [] => none

/-- Search (`re.search`) of the `__doPostBack` pattern over an href: try every start
position, returning the captures of the first successful match. -/
def findPostback : List Char → Option (List Char × List Char)
  | [] => none
  | l@(_ :: rest) =>
    if "__doPostBack(".data.isPrefixOf l then
      match matchPostbackTail (l.drop 13) with
      | some r => some r
      | none => findPostback rest
    else findPostback rest

/-- Hexadecimal value of a character, if any. -/
def hexVal (c : Char) : Option Nat :=
  if c.isDigit then some (c.toNat - 48)
  else if 'a' ≤ c ∧ c ≤ 'f' then some (c.toNat - 87)
  else if 'A' ≤ c ∧ c ≤ 'F' then some (c.toNat - 55)
  else none

/-- Models `urllib.parse.unquote` for single-byte percent-escapes (the pager
arguments contain at most ASCII escapes). -/
def percentDecode : List Char → List Char
  | '%' :: a :: b :: rest =>
    match hexVal a, hexVal b with
    | some x, some y => Char.ofNat (16 * x + y) :: percentDecode rest
    | _, _ => '%' :: percentDecode (a :: b :: rest)
  | c :: rest => c :: percentDecode rest
  | [] => []

/-- Search `re.search(r"Page\$(\d+)", arg)`: the number of the first `Page$` marker
followed by at least one digit. -/
def findPageNum : List Char → Option Nat
  | [] => none
  | l@(_ :: rest) =>
    if "Page$".data.isPrefixOf l then
      let ds := (l.drop 5).takeWhile Char.isDigit
      if ds ≠ [] then some (digitsVal ds) else findPageNum rest
    else findPageNum rest

/-- Insert into an ascending duplicate-free list (the model of adding to a
Python `set` that is later `sorted`). -/
def insertPage (n : Nat) : List Nat → List Nat
  | [] => [n]
  | m :: rest =>
    if n < m then n :: m :: rest
    else if n = m then m :: rest
    else m :: insertPage n rest

/-- The decoded argument of an href's postback call, if the href matches. -/
def postbackArg (href : String) : Option (List Char) :=
  (findPostback href.data).map (fun r => percentDecode r.2)

/-- The numeric pages visible in a pager href list (lines 248-258). -/
def pagerNums (hrefs : List String) : List Nat :=
  hrefs.foldl
    (fun acc h =>
      match postbackArg h with
      | none => acc
      | some arg =>
        match findPageNum arg with
        | some n => insertPage n acc
        | none => acc)
    []

/-- Whether any matching href's argument contains `Page$Next` (lines 259-261). -/
def pagerHasNext (hrefs : List String) : Bool :=
  hrefs.any (fun h =>
    match postbackArg h with
    | some arg => containsSub "Page$Next".data arg
    | none => false)

/-- Spider `_extract_target_from_postback_list`: the decoded target of the first
matching href. -/
def pagerTarget : List String → Option String
  | [] => none
  | h :: rest =>
    match findPostback h.data with
    | some r => some ⟨percentDecode r.1⟩
    | none => pagerTarget rest

/-- The pager information returned by `_extract_pager`. -/
structure PagerInfo where
  target : Option String
  pages : List Nat
  has_next : Bool
deriving DecidableEq

/-- Spider `_extract_pager` over the pager hrefs of a table: first matching target,
ascending numeric page set defaulting to `[1]` when empty, and the
next-link flag. -/
def extract_pager (t : TableSel) : PagerInfo :=
  let ps := pagerNums t.pagerHrefs
  { target := pagerTarget t.pagerHrefs
    pages := if ps = [] then [1] else ps
    has_next := pagerHasNext t.pagerHrefs }

/-- A section-table candidate as `_pick_section_table` inspects it: whether it
has data rows, whether it has pager links, and an identifying tag. -/
structure Cand where
  hasRows : Bool
  hasPager : Bool
  tid : Nat
deriving DecidableEq

/-- The candidate loop of `_pick_section_table` (lines 226-236), with the
process-wide `_fallback_table_chosen` slot threaded explicitly: returns the
chosen table and the slot's new value.  The slot is written only when it was
never set before (`not hasattr(...)`), and the final `getattr` returns it for
any section. -/
def pickLoop (fb : Option Cand) : List Cand → Option Cand × Option Cand
  | [] => (fb, fb)
  | t :: rest =>
    if t.hasRows then
      if t.hasPager then (some t, fb)
      else pickLoop (if fb = none then some t else fb) rest
    else pickLoop fb rest

/-- Spider `_pick_section_table` for one heading: `candidates` is empty when the
heading is absent from the page. -/
def pick_section_table (fb : Option Cand) (candidates : List Cand) :
    Option Cand × Option Cand :=
  pickLoop fb candidates

/-- A whole run of `parse`: locate each section's table in order, threading
the spider-instance fallback slot across sections as the code does. -/
def runSections (sections : List (List Cand)) : List (Option Cand) :=
  (sections.foldl
    (fun (acc : List (Option Cand) × Option Cand) cands =>
      let r := pick_section_table acc.2 cands
      (acc.1 ++ [r.1], r.2))
    ([], none)).1

/-- Modelled from the spec (§4.1, §9), for comparison: the Section Locator
with the fallback slot scoped to the current section only. -/
def pick_section_table_spec (candidates : List Cand) : Option Cand :=
  (pickLoop none candidates).1

/-- The numeric dispatch guard of `_parse_section_page` (line 104): from a
response rendered at `page_index`, only strictly higher visible pages are
requested. -/
def numericDispatch (pages : List Nat) (pageIndex : Nat) : List Nat :=
  pages.filter (fun p => pageIndex < p)

/-- A chain of NumericDispatch requests: each link is a page requested from
the response of the previous one (with that response's visible page set
existentially abstracted). -/
inductive NumericChain : Nat → List Nat → Prop
  | nil (i : Nat) : NumericChain i []
  | cons (i p : Nat) (pages : List Nat) (rest : List Nat) :
      p ∈ numericDispatch pages i → NumericChain p rest →
      NumericChain i (p :: rest)

/-- The numeric-dispatch loop of `_parse_section_next` (lines 131-147) on one
response: fold over the visible pages, skipping pages already in the
chain-local `seen` set, adding each new page to `seen`, and dispatching it
when it is not the current page.  Returns the dispatched pages and the new
`seen` set. -/
def nextChainStep (pages : List Nat) (pageIndex : Nat) (seen : List Nat) :
    List Nat × List Nat :=
  pages.foldl
    (fun acc p =>
      if p ∈ acc.2 then acc
      else ((if p ≠ pageIndex then acc.1 ++ [p] else acc.1), p :: acc.2))
    ([], seen)

/-- A whole NextChain walk (lines 118-166): each element of `resps` is the
(visible pages, has-next) pair of one response in the chain.  Collects every
numeric page dispatched from the chain. -/
def nextChainRun : List (List Nat × Bool) → Nat → List Nat → List Nat
  | [], _, _ => []
  | r :: rest, pageIndex, seen =>
    let step := nextChainStep r.1 pageIndex seen
    let seen2 := if (pageIndex + 1) ∈ step.2 then step.2 else (pageIndex + 1) :: step.2
    step.1 ++ (if r.2 then nextChainRun rest (pageIndex + 1) seen2 else [])

/-- Modelled from the spec (§4.4), for comparison with `resolvedHeaders`: the
first data row is promoted to a header row when most of its cell values
contain letters and its cell count matches the subsequent rows. -/
def spec_infers_header (t : TableSel) : Bool :=
  match t.rows with
  | [] => false
  | r0 :: rest =>
    decide (2 * ((rowDataCells r0).filter hasLetter).length > r0.length) &&
      rest.all (fun r => r.length = r0.length)

/-! ### Helper lemmas -/

theorem dictSet_of_not_key (m : List (String × PyVal)) (k : String) (v : PyVal)
    (h : m.any (fun kv => kv.1 = k) = false) : dictSet m k v = m ++ [(k, v)] := by
  simp only [dictSet, h, Bool.false_eq_true, if_false]

theorem foldl_dictSet_length (ps : List (String × PyVal)) :
    ∀ d : List (String × PyVal),
      (ps.map Prod.fst).Nodup →
      (∀ k ∈ ps.map Prod.fst, d.any (fun kv => kv.1 = k) = false) →
      (ps.foldl (fun d p => dictSet d p.1 p.2) d).length = d.length + ps.length := by
  induction ps with
  | nil => intro d _ _; simp
  | cons p ps ih =>
    intro d hnd hfresh
    have hf : d.any (fun kv => kv.1 = p.1) = false := hfresh p.1 (by simp)
    rw [List.foldl_cons, dictSet_of_not_key _ _ _ hf]
    have hfresh2 : ∀ k ∈ ps.map Prod.fst,
        (d ++ [(p.1, p.2)]).any (fun kv => kv.1 = k) = false := by
      intro k hk
      have hkp : ¬ (p.1 = k) := by
        intro he
        exact (List.nodup_cons.mp (by simpa using hnd)).1 (he ▸ hk)
      simp [List.any_append, hfresh k (by simp [hk]), hkp]
    rw [ih (d ++ [(p.1, p.2)]) (by simpa using (List.nodup_cons.mp (by simpa using hnd)).2) hfresh2]
    simp [List.length_append]
    omega

theorem rowItemData_eq_foldPairs (headers cells : List String) :
    rowItemData headers cells =
      (cells.enum.map (fun iv => (rowKey headers iv.1, PyVal.s iv.2))).foldl
        (fun d p => dictSet d p.1 p.2) [] := by
  simp [rowItemData, List.foldl_map]

theorem pairs_map_fst (headers cells : List String) :
    (cells.enum.map (fun iv => (rowKey headers iv.1, PyVal.s iv.2))).map Prod.fst =
      assignedKeys headers cells := by
  rw [List.map_map]
  have : (Prod.fst ∘ fun iv : Nat × String => (rowKey headers iv.1, PyVal.s iv.2)) =
      (rowKey headers ∘ Prod.fst) := rfl
  rw [this, ← List.map_map, List.enum_map_fst, assignedKeys]

/-! ### Example inputs used in closed theorems -/

/-- A two-cell row whose two header names coincide. -/
def exDupHeaderTable : TableSel :=
  ⟨["X", "X"], [[⟨["a"]⟩, ⟨["b"]⟩]], []⟩

/-- A five-name header over a seven-cell row (the spec's header-shortfall
example). -/
def exShortfallTable : TableSel :=
  ⟨["H1", "H2", "H3", "H4", "H5"],
   [[⟨["a"]⟩, ⟨["b"]⟩, ⟨["c"]⟩, ⟨["d"]⟩, ⟨["e"]⟩, ⟨["f"]⟩, ⟨["g"]⟩]], []⟩

/-- A headerless table whose first row has one word-like cell among three. -/
def exOneLetterTable : TableSel :=
  ⟨[], [[⟨["x"]⟩, ⟨["1"]⟩, ⟨["2"]⟩], [⟨["a"]⟩, ⟨["3"]⟩, ⟨["4"]⟩]], []⟩

/-- A table whose first data row duplicates its header and whose second data
row is blank. -/
def exDropBlankTable : TableSel :=
  ⟨["A"], [[⟨["a"]⟩], [⟨[""]⟩]], []⟩

/-- A table whose first data row duplicates its header, followed by one
non-blank data row. -/
def exDropTable : TableSel :=
  ⟨["Name"], [[⟨["name"]⟩], [⟨["acme"]⟩]], []⟩

/-- A rows-only candidate table (data rows, no pager links). -/
def exRowsOnlyCand : Cand := ⟨true, false, 0⟩

/-- Single-quote string, used to assemble example hrefs. -/
def sqs : String := String.singleton sq

/-- The spec's end-to-end pager example: a link posting back `Page$2`. -/
def exHrefPage2 : String :=
  "javascript:__doPostBack(" ++ sqs ++ "pager1" ++ sqs ++ "," ++ sqs ++ "Page$2" ++ sqs ++ ")"

/-- The spec's end-to-end pager example: a link posting back `Page$Next`. -/
def exHrefNext : String :=
  "javascript:__doPostBack(" ++ sqs ++ "pager1" ++ sqs ++ "," ++ sqs ++ "Page$Next" ++ sqs ++ ")"

/-- The spec's end-to-end pager example table. -/
def exPagerTable : TableSel :=
  ⟨[], [], [exHrefPage2, exHrefNext]⟩

/-! ### Claim C6 -/

/-- Claim C6 (amended): for every non-blank row, the data dictionary emitted
by the Row Parser has one key per cell provided the assigned keys (header
names for covered positions, synthesized positional names beyond) are
pairwise distinct; a header shortfall is filled by synthesized keys and never
raises. -/
theorem claim_c6_row_key_count (headers cells : List String)
    (h : (assignedKeys headers cells).Nodup) :
    (rowItemData headers cells).length = cells.length := by
  rw [rowItemData_eq_foldPairs,
    foldl_dictSet_length _ [] ((pairs_map_fst headers cells).symm ▸ h) (by intro k _; rfl)]
  simp

/-- Claim C6 witness: the spec's example, a 7-cell row under a 5-name header,
yields a 7-key record with synthesized keys `col_6` and `col_7` at positions 6
and 7, and the table parses to exactly that record. -/
theorem claim_c6_row_key_count_witness :
    (assignedKeys ["H1", "H2", "H3", "H4", "H5"]
      ["a", "b", "c", "d", "e", "f", "g"]).Nodup ∧
    (rowItemData ["H1", "H2", "H3", "H4", "H5"]
      ["a", "b", "c", "d", "e", "f", "g"]).length = 7 ∧
    assignedKeys ["H1", "H2", "H3", "H4", "H5"] ["a", "b", "c", "d", "e", "f", "g"] =
      ["H1", "H2", "H3", "H4", "H5", "col_6", "col_7"] ∧
    parse_table exShortfallTable 1 "s" 1 "u" =
      [rowItemFull ["H1", "H2", "H3", "H4", "H5"] ["a", "b", "c", "d", "e", "f", "g"] 1 "s" 1 "u"] :=
  ⟨by decide, claim_c6_row_key_count _ _ (by decide), by decide, by decide⟩

/-- Claim C6 counterexample: a non-blank 2-cell row under the duplicate
header `["X", "X"]` is emitted with a single data key, not two, because the
Python `dict` collapses equal keys. -/
theorem claim_c6_counterexample :
    parse_table exDupHeaderTable 1 "s" 1 "u" =
      [rowItemFull ["X", "X"] ["a", "b"] 1 "s" 1 "u"] ∧
    (rowItemData ["X", "X"] ["a", "b"]).length = 1 ∧
    (rowItemData ["X", "X"] ["a", "b"]).length ≠ (["a", "b"] : List String).length := by
  refine ⟨by decide, by decide, by decide⟩

/-! ### Claim C7 -/

/-- Claim C7 (amended): when a table has no explicit header cells, the Row
Parser promotes the first data row to a header row exactly when that row's
text-node list is non-empty and at least one of its values contains an ASCII
letter; neither a majority-letters test nor a cell-count match with
subsequent rows is required. -/
theorem claim_c7_header_inference (t : TableSel) (hex : explicitHeaders t = []) :
    (resolvedHeaders t ≠ [] ↔
      fallbackCand t ≠ [] ∧ (fallbackCand t).any hasLetter = true) ∧
    (resolvedHeaders t ≠ [] → resolvedHeaders t = fallbackCand t) := by
  unfold resolvedHeaders
  rw [hex]
  simp only [ne_eq, not_true_eq_false, if_false, reduceIte]
  by_cases h1 : fallbackCand t = []
  · simp [h1]
  · by_cases h2 : (fallbackCand t).any hasLetter = true
    · simp [h1, h2]
    · simp [h1, h2]

/-- Claim C7 witness: a headerless table whose first row is
`["Name", "Rate"]` is promoted to a header row. -/
theorem claim_c7_header_inference_witness :
    explicitHeaders (⟨[], [[⟨["Name"]⟩, ⟨["Rate"]⟩]], []⟩ : TableSel) = [] ∧
    ((resolvedHeaders (⟨[], [[⟨["Name"]⟩, ⟨["Rate"]⟩]], []⟩ : TableSel) ≠ [] ↔
      fallbackCand (⟨[], [[⟨["Name"]⟩, ⟨["Rate"]⟩]], []⟩ : TableSel) ≠ [] ∧
      (fallbackCand (⟨[], [[⟨["Name"]⟩, ⟨["Rate"]⟩]], []⟩ : TableSel)).any hasLetter = true) ∧
     (resolvedHeaders (⟨[], [[⟨["Name"]⟩, ⟨["Rate"]⟩]], []⟩ : TableSel) ≠ [] →
      resolvedHeaders (⟨[], [[⟨["Name"]⟩, ⟨["Rate"]⟩]], []⟩ : TableSel) =
        fallbackCand (⟨[], [[⟨["Name"]⟩, ⟨["Rate"]⟩]], []⟩ : TableSel))) :=
  ⟨by decide, claim_c7_header_inference _ (by decide)⟩

/-- Claim C7 counterexample: in a headerless table whose first row is
`["x", "1", "2"]`, only one of three cells contains a letter — "most" do not —
yet the code still promotes the row to a header row, so the claimed
"most of its cell values contain letters" condition does not govern the code. -/
theorem claim_c7_counterexample :
    resolvedHeaders exOneLetterTable = ["x", "1", "2"] ∧
    resolvedHeaders exOneLetterTable = fallbackCand exOneLetterTable ∧
    spec_infers_header exOneLetterTable = false := by
  refine ⟨by decide, by decide, by decide⟩

/-! ### Claim C8 -/

/-- Claim C8 (amended): when the resolved header row's text equals the first
data row's text cell-by-cell, case-insensitively, the Row Parser skips that
first data row and emits exactly the non-blank rows after it — one fewer
record than the raw row count when all remaining rows are non-blank; when the
texts differ in any cell, the first data row is emitted as data provided it
is non-blank. -/
theorem claim_c8_drop_first (t : TableSel) (i p : Nat) (st u : String) :
    (dropFirst t (resolvedHeaders t) = true →
      (∀ r ∈ t.rows.drop 1, rowNonBlank r = true) →
      (parse_table t i st p u).length + 1 = t.rows.length) ∧
    (dropFirst t (resolvedHeaders t) = false →
      ∀ r0 rest, t.rows = r0 :: rest → rowNonBlank r0 = true →
      (parse_table t i st p u).head? =
        some (rowItemFull (resolvedHeaders t) (rowDataCells r0) i st p u)) := by
  constructor
  · intro hdrop hnb
    have hne : t.rows ≠ [] := by
      intro he
      rw [dropFirst, he] at hdrop
      simp at hdrop
    have hlen : 1 ≤ t.rows.length := List.length_pos.mpr hne
    have hfe : (t.rows.drop 1).filter rowNonBlank = t.rows.drop 1 :=
      List.filter_eq_self.mpr hnb
    simp only [parse_table, hdrop, if_true, hfe, List.length_map, List.length_drop]
    omega
  · intro hdrop r0 rest hrows hnb0
    simp only [parse_table, hdrop, Bool.false_eq_true, if_false, hrows, List.drop_zero,
      List.filter_cons, hnb0, if_true, List.map_cons, List.head?_cons]

/-- Claim C8 witness: with all rows present and non-blank, the drop-first
table yields one record for its two raw rows. -/
theorem claim_c8_drop_first_witness :
    dropFirst exDropTable (resolvedHeaders exDropTable) = true ∧
    (∀ r ∈ exDropTable.rows.drop 1, rowNonBlank r = true) ∧
    (parse_table exDropTable 1 "s" 1 "u").length + 1 = exDropTable.rows.length :=
  ⟨by decide, by decide, (claim_c8_drop_first exDropTable 1 1 "s" "u").1 (by decide) (by decide)⟩

/-- Claim C8 counterexample: the first data row of `exDropBlankTable`
duplicates its header, so it is dropped, but the remaining row is blank and is
discarded too; the table has 2 raw rows yet yields 0 records, not 2 - 1 = 1. -/
theorem claim_c8_counterexample :
    dropFirst exDropBlankTable (resolvedHeaders exDropBlankTable) = true ∧
    exDropBlankTable.rows.length = 2 ∧
    (parse_table exDropBlankTable 1 "s" 1 "u").length = 0 := by
  refine ⟨by decide, by decide, by decide⟩

/-! ### Claim C3 -/

/-- Claim C3 (code bug): the fallback slot `_fallback_table_chosen` is a
process-wide attribute, so a rows-only table remembered while locating
section 1 is returned verbatim for a later section whose heading is absent,
instead of the "not found" the contract requires.  A first call with a clean
slot does return "not found" for an absent heading, and the spec-scoped
locator always does. -/
theorem claim_c3_shared_fallback_bug :
    pick_section_table none [] = (none, none) ∧
    runSections [[exRowsOnlyCand], []] = [some exRowsOnlyCand, some exRowsOnlyCand] ∧
    pick_section_table_spec [] = none := by
  refine ⟨by decide, by decide, by decide⟩

/-! ### Claim C2 -/

theorem mem_insertPage (x n : Nat) : ∀ l : List Nat, x ∈ insertPage n l ↔ x = n ∨ x ∈ l := by
  intro l
  induction l with
  | nil => simp [insertPage]
  | cons m rest ih =>
    unfold insertPage
    by_cases h1 : n < m
    · simp [h1]
    · by_cases h2 : n = m
      · subst h2
        simp [h1]
      · simp [h1, h2, ih]
        tauto

theorem sorted_insertPage (n : Nat) :
    ∀ l : List Nat, l.Sorted (· < ·) → (insertPage n l).Sorted (· < ·) := by
  intro l
  induction l with
  | nil => intro _; simp [insertPage]
  | cons m rest ih =>
    intro h
    have hm := List.sorted_cons.mp h
    unfold insertPage
    by_cases h1 : n < m
    · simp only [h1, if_true]
      refine List.sorted_cons.mpr ⟨?_, h⟩
      intro b hb
      rcases List.mem_cons.mp hb with hb | hb
      · exact hb ▸ h1
      · exact h1.trans (hm.1 b hb)
    · by_cases h2 : n = m
      · subst h2
        simpa using h
      · have hmn : m < n := by omega
        simp only [h1, if_false, h2, if_true]
        refine List.sorted_cons.mpr ⟨?_, ih hm.2⟩
        intro b hb
        rcases (mem_insertPage b n rest).mp hb with hb | hb
        · exact hb ▸ hmn
        · exact hm.1 b hb

theorem pagerNums_sorted_aux (hrefs : List String) :
    ∀ acc : List Nat, acc.Sorted (· < ·) →
      (hrefs.foldl
        (fun acc h =>
          match postbackArg h with
          | none => acc
          | some arg =>
            match findPageNum arg with
            | some n => insertPage n acc
            | none => acc)
        acc).Sorted (· < ·) := by
  induction hrefs with
  | nil => intro acc h; simpa using h
  | cons h rest ih =>
    intro acc hacc
    rw [List.foldl_cons]
    rcases hp : postbackArg h with _ | arg
    · simpa [hp] using ih acc hacc
    · rcases hn : findPageNum arg with _ | n
      · simpa [hp, hn] using ih acc hacc
      · simpa [hp, hn] using ih (insertPage n acc) (sorted_insertPage n acc hacc)

theorem pagerNums_sorted (hrefs : List String) : (pagerNums hrefs).Sorted (· < ·) :=
  pagerNums_sorted_aux hrefs [] (by simp)

theorem pagerTarget_eq_findSome : ∀ hrefs : List String,
    pagerTarget hrefs =
      hrefs.findSome? (fun h => (findPostback h.data).map
        (fun r => (⟨percentDecode r.1⟩ : String))) := by
  intro hrefs
  induction hrefs with
  | nil => rfl
  | cons h rest ih =>
    rw [pagerTarget, List.findSome?_cons]
    rcases hp : findPostback h.data with _ | r
    · simpa [hp] using ih
    · simp [hp]

/-- Claim C2 (amended): the Pager Extractor returns the postback target of
the first matching link, an ascending duplicate-free list of visible page
indices that defaults to `[1]` only when no numeric index is found (page 1 is
not otherwise forced into the set), and the next-exists flag; the spec's
end-to-end example table yields `(target = "pager1", pages = [2],
has_next = true)`. -/
theorem claim_c2_pager_extractor (t : TableSel) :
    (extract_pager t).pages.Sorted (· < ·) ∧
    (extract_pager t).pages ≠ [] ∧
    (pagerNums t.pagerHrefs = [] → (extract_pager t).pages = [1]) ∧
    (extract_pager t).target =
      t.pagerHrefs.findSome? (fun h => (findPostback h.data).map
        (fun r => (⟨percentDecode r.1⟩ : String))) ∧
    extract_pager exPagerTable =
      { target := some "pager1", pages := [2], has_next := true } := by
  refine ⟨?_, ?_, ?_, pagerTarget_eq_findSome t.pagerHrefs, by decide⟩
  · simp only [extract_pager]
    by_cases h : pagerNums t.pagerHrefs = []
    · simp [h]
    · simpa [h] using pagerNums_sorted t.pagerHrefs
  · simp only [extract_pager]
    by_cases h : pagerNums t.pagerHrefs = []
    · simp [h]
    · simp [h]
  · intro h
    simp [extract_pager, h]

/-- Claim C2 witness: on a table with no pager links the page set defaults to
`[1]`. -/
theorem claim_c2_pager_extractor_witness :
    pagerNums ([] : List String) = [] ∧
    (extract_pager (⟨[], [], []⟩ : TableSel)).pages = [1] :=
  ⟨by decide, (claim_c2_pager_extractor ⟨[], [], []⟩).2.2.1 (by decide)⟩

/-- Claim C2 counterexample: the spec's end-to-end example (links `Page$2`
and `Page$Next` under target `pager1`) yields `pages = [2]`, not the claimed
`pages = [1, 2]` — page 1 is added only when no numeric index at all is
visible. -/
theorem claim_c2_counterexample :
    (extract_pager exPagerTable).pages = [2] ∧
    extract_pager exPagerTable ≠
      { target := some "pager1", pages := [1, 2], has_next := true } := by
  refine ⟨by decide, by decide⟩

/-! ### Claim C4 -/

theorem numericChain_pairwise : ∀ {i : Nat} {l : List Nat},
    NumericChain i l → (i :: l).Pairwise (· < ·) := by
  intro i l h
  induction h with
  | nil => simp
  | cons i p pages rest hmem _ ih =>
    have hip : i < p := (List.mem_filter.mp hmem).2 |> of_decide_eq_true
    refine List.pairwise_cons.mpr ⟨?_, ih⟩
    intro b hb
    rcases List.mem_cons.mp hb with hb | hb
    · exact hb ▸ hip
    · exact hip.trans ((List.pairwise_cons.mp ih).1 b hb)

theorem nextChainStep_fold_inv (pages : List Nat) (pageIndex : Nat) (seen0 : List Nat) :
    ∀ (d s : List Nat), d.Nodup → (∀ p ∈ d, p ∈ s) → (∀ p ∈ d, p ∉ seen0) →
      (∀ x ∈ seen0, x ∈ s) →
      (pages.foldl
        (fun acc p =>
          if p ∈ acc.2 then acc
          else ((if p ≠ pageIndex then acc.1 ++ [p] else acc.1), p :: acc.2))
        (d, s)).1.Nodup ∧
      (∀ p ∈ (pages.foldl
        (fun acc p =>
          if p ∈ acc.2 then acc
          else ((if p ≠ pageIndex then acc.1 ++ [p] else acc.1), p :: acc.2))
        (d, s)).1, p ∈ (pages.foldl
        (fun acc p =>
          if p ∈ acc.2 then acc
          else ((if p ≠ pageIndex then acc.1 ++ [p] else acc.1), p :: acc.2))
        (d, s)).2 ∧ p ∉ seen0) ∧
      (∀ x ∈ s, x ∈ (pages.foldl
        (fun acc p =>
          if p ∈ acc.2 then acc
          else ((if p ≠ pageIndex then acc.1 ++ [p] else acc.1), p :: acc.2))
        (d, s)).2) := by
  induction pages with
  | nil =>
    intro d s hnd hds hdseen hseen
    refine ⟨hnd, ?_, ?_⟩
    · intro p hp
      exact ⟨hds p hp, hdseen p hp⟩
    · intro x hx
      exact hx
  | cons q rest ih =>
    intro d s hnd hds hdseen hseen
    rw [List.foldl_cons]
    by_cases hq : q ∈ s
    · simp only [hq, if_true]
      exact ih d s hnd hds hdseen hseen
    · simp only [hq, if_false]
      by_cases hqi : q ≠ pageIndex
      · rw [if_pos hqi]
        have hqd : q ∉ d := fun h => hq (hds q h)
        have h1 : (d ++ [q]).Nodup := by
          simp [List.nodup_append, hnd, hqd]
        have h2 : ∀ p ∈ d ++ [q], p ∈ q :: s := by
          intro p hp
          rcases List.mem_append.mp hp with hp | hp
          · exact List.mem_cons_of_mem q (hds p hp)
          · simp at hp
            simp [hp]
        have h3 : ∀ p ∈ d ++ [q], p ∉ seen0 := by
          intro p hp
          rcases List.mem_append.mp hp with hp | hp
          · exact hdseen p hp
          · simp at hp
            subst hp
            exact fun hmem => hq (hseen p hmem)
        have h4 : ∀ x ∈ seen0, x ∈ q :: s := fun x hx => List.mem_cons_of_mem q (hseen x hx)
        have := ih (d ++ [q]) (q :: s) h1 h2 h3 h4
        refine ⟨this.1, this.2.1, ?_⟩
        intro x hx
        exact this.2.2 x (List.mem_cons_of_mem q hx)
      · rw [if_neg hqi]
        have h4 : ∀ x ∈ seen0, x ∈ q :: s := fun x hx => List.mem_cons_of_mem q (hseen x hx)
        have := ih d (q :: s) hnd (fun p hp => List.mem_cons_of_mem q (hds p hp)) hdseen h4
        refine ⟨this.1, this.2.1, ?_⟩
        intro x hx
        exact this.2.2 x (List.mem_cons_of_mem q hx)

theorem nextChainStep_inv (pages : List Nat) (pageIndex : Nat) (seen : List Nat) :
    (nextChainStep pages pageIndex seen).1.Nodup ∧
    (∀ p ∈ (nextChainStep pages pageIndex seen).1,
      p ∈ (nextChainStep pages pageIndex seen).2 ∧ p ∉ seen) ∧
    (∀ x ∈ seen, x ∈ (nextChainStep pages pageIndex seen).2) := by
  have := nextChainStep_fold_inv pages pageIndex seen [] seen (by simp) (by simp) (by simp)
    (fun x hx => hx)
  exact ⟨this.1, this.2.1, this.2.2⟩

theorem nextChainRun_inv : ∀ (resps : List (List Nat × Bool)) (i : Nat) (seen : List Nat),
    (nextChainRun resps i seen).Nodup ∧ ∀ p ∈ nextChainRun resps i seen, p ∉ seen := by
  intro resps
  induction resps with
  | nil =>
    intro i seen
    exact ⟨List.nodup_nil, fun p hp => absurd hp (List.not_mem_nil p)⟩
  | cons r rest ih =>
    intro i seen
    rw [nextChainRun]
    have hstep := nextChainStep_inv r.1 i seen
    set step := nextChainStep r.1 i seen with hstepdef
    set seen2 := if (i + 1) ∈ step.2 then step.2 else (i + 1) :: step.2 with hseen2
    have hsub : ∀ x ∈ step.2, x ∈ seen2 := by
      intro x hx
      rw [hseen2]
      split
      · exact hx
      · exact List.mem_cons_of_mem _ hx
    by_cases hnext : r.2
    · simp only [hnext, if_true]
      have hrest := ih (i + 1) seen2
      constructor
      · refine List.Nodup.append hstep.1 hrest.1 ?_
        intro p hp1 hp2
        exact hrest.2 p hp2 (hsub p (hstep.2.1 p hp1).1)
      · intro p hp
        rcases List.mem_append.mp hp with hp | hp
        · exact (hstep.2.1 p hp).2
        · intro hmem
          exact hrest.2 p hp (hsub p (hstep.2.2 p hmem))
    · simp only [hnext, if_false]
      constructor
      · simpa using hstep.1
      · intro p hp
        simp at hp
        exact (hstep.2.1 p hp).2

/-- Claim C4: a (section, page) pair is traversed at most once per
strategy-chain.  Along any NumericDispatch chain the guard `p > page_index`
makes the visited page indices strictly increasing, so a chain never revisits
a page; and every numeric page dispatched from a NextChain walk is guarded by
the chain-local seen set, so the chain's numeric dispatches are pairwise
distinct and never target an already-seen page.  Each chain carries a fixed
section index, so the pair (section, page) is visited at most once per chain. -/
theorem claim_c4_no_revisit :
    (∀ (i : Nat) (l : List Nat), NumericChain i l → (i :: l).Nodup) ∧
    (∀ (resps : List (List Nat × Bool)) (i : Nat) (seen : List Nat),
      (nextChainRun resps i seen).Nodup ∧ ∀ p ∈ nextChainRun resps i seen, p ∉ seen) := by
  constructor
  · intro i l h
    exact (numericChain_pairwise h).imp Nat.ne_of_lt
  · exact nextChainRun_inv

/-- Claim C4 witness: a concrete NumericDispatch chain 1 → 2 → 5 visits
pairwise-distinct pages, and a concrete NextChain walk starting at page 2
with seen = {1} dispatches [3, 4] without repetition. -/
theorem claim_c4_no_revisit_witness :
    NumericChain 1 [2, 5] ∧ ([1, 2, 5] : List Nat).Nodup ∧
    nextChainRun [([2, 3], true), ([3, 4], false)] 2 [1] = [3, 4] ∧
    (nextChainRun [([2, 3], true), ([3, 4], false)] 2 [1]).Nodup := by
  have hchain : NumericChain 1 [2, 5] :=
    NumericChain.cons 1 2 [2, 3] [5] (by decide)
      (NumericChain.cons 2 5 [5] [] (by decide) (NumericChain.nil 5))
  exact ⟨hchain, claim_c4_no_revisit.1 1 [2, 5] hchain, by decide,
    (claim_c4_no_revisit.2 [([2, 3], true), ([3, 4], false)] 2 [1]).1⟩

/-! ### Claims C1 and C5 -/

theorem identityOf_applyUpdate (e o : IssueRow) :
    identityOf (applyUpdate e o) = identityOf e := rfl

theorem sameIdentity_applyUpdate (r obj o : IssueRow) :
    sameIdentity (applyUpdate r o) obj = sameIdentity r obj := by
  simp [sameIdentity, identityOf_applyUpdate]

theorem sameIdentity_self (obj : IssueRow) : sameIdentity obj obj = true := by
  simp [sameIdentity]

theorem identityCount_map_upd (db : DB) (obj : IssueRow) :
    identityCount
      (db.map (fun r => if sameIdentity r obj then applyUpdate r obj else r)) obj =
      identityCount db obj := by
  unfold identityCount
  rw [List.countP_map]
  apply List.countP_congr
  intro r _
  by_cases h : sameIdentity r obj = true
  · simp [Function.comp, h, sameIdentity_applyUpdate]
  · simp [Function.comp, h]

/-- One upsert of an item into a database holding at most one row with the
item's identity succeeds and leaves exactly one row with that identity. -/
theorem process_item_ok (r2base : String) (it : Item) (db : DB)
    (h : identityCount db (mkIssueRow r2base it) ≤ 1) :
    ∃ db', process_item r2base db it = Except.ok db' ∧
      identityCount db' (mkIssueRow r2base it) = 1 := by
  have hcount : identityCount db (mkIssueRow r2base it) =
      (db.filter (fun r => sameIdentity r (mkIssueRow r2base it))).length := by
    simp [identityCount, List.countP_eq_length_filter]
  rcases hF : db.filter (fun r => sameIdentity r (mkIssueRow r2base it)) with _ | ⟨x, tl⟩
  · refine ⟨db ++ [mkIssueRow r2base it], ?_, ?_⟩
    · simp only [process_item, hF]
    · unfold identityCount
      rw [List.countP_append]
      have h0 : db.countP (fun r => sameIdentity r (mkIssueRow r2base it)) = 0 := by
        rw [List.countP_eq_length_filter, hF]
        rfl
      simp [h0, sameIdentity_self]
  · have htl : tl = [] := by
      have : (x :: tl).length ≤ 1 := by
        rw [← hF, ← hcount]
        exact h
      simpa using this
    subst htl
    refine ⟨db.map (fun r =>
      if sameIdentity r (mkIssueRow r2base it) then applyUpdate r (mkIssueRow r2base it) else r),
      ?_, ?_⟩
    · simp only [process_item, hF]
    · rw [identityCount_map_upd, hcount, hF]
      rfl

/-- Claim C1: upserting a record and then upserting an identical record
leaves exactly one stored row for its identity key (security_name,
start_date, end_date, detail_url); the identity lookup matches all four
parts, nulls included (SQLAlchemy turns `== None` into `IS NULL`), for any
starting database that holds at most one row with that identity. -/
theorem claim_c1_upsert_idempotent (r2base : String) (it : Item) (db : DB)
    (h : identityCount db (mkIssueRow r2base it) ≤ 1) :
    ∃ db1 db2,
      process_item r2base db it = Except.ok db1 ∧
      process_item r2base db1 it = Except.ok db2 ∧
      identityCount db1 (mkIssueRow r2base it) = 1 ∧
      identityCount db2 (mkIssueRow r2base it) = 1 := by
  obtain ⟨db1, h1, hc1⟩ := process_item_ok r2base it db h
  obtain ⟨db2, h2, hc2⟩ := process_item_ok r2base it db1 (le_of_eq hc1)
  exact ⟨db1, db2, h1, h2, hc1, hc2⟩

/-- A concrete scraped item used to instantiate the persistence theorems. -/
def itemEx : Item :=
  { security_name := some "ACME LTD"
    exchange_platform := some "BSE"
    type_of_issue := some "IPO"
    type_of_issue_long := none
    issue_status := some "Active"
    security_type := some "Equity"
    start_date := some "15 Jan 2024"
    end_date := some "17-01-2024"
    offer_price := some "100-120"
    price_min := some "100"
    price_max := some "120"
    face_value := some "10"
    list_url := some "https://listing"
    detail_url := some "https://detail"
    details := [("Lead Manager", "X Capital")]
    pdf_links := [⟨some "Prospectus", some "https://a.b/p.pdf"⟩]
    links := []
    files := [⟨some "https://a.b/p.pdf", some "issues/acme/p.pdf"⟩] }

/-- Claim C1 witness: upserting the concrete item twice into the empty
database stores exactly one row with its identity. -/
theorem claim_c1_upsert_idempotent_witness :
    identityCount ([] : DB) (mkIssueRow "https://cdn" itemEx) ≤ 1 ∧
    ∃ db1 db2,
      process_item "https://cdn" [] itemEx = Except.ok db1 ∧
      process_item "https://cdn" db1 itemEx = Except.ok db2 ∧
      identityCount db1 (mkIssueRow "https://cdn" itemEx) = 1 ∧
      identityCount db2 (mkIssueRow "https://cdn" itemEx) = 1 :=
  ⟨by decide, claim_c1_upsert_idempotent "https://cdn" itemEx [] (by decide)⟩

/-- The field-level contract of a matched upsert: the four identity columns
are untouched, the payload is replaced in full, and every allow-listed scalar
column takes the incoming value exactly when that value is truthy
(non-null and non-empty), keeping the stored value otherwise. -/
def UpdSpec (x y obj : IssueRow) : Prop :=
  y.security_name = x.security_name ∧
  y.start_date = x.start_date ∧
  y.end_date = x.end_date ∧
  y.detail_url = x.detail_url ∧
  y.payload = obj.payload ∧
  y.exchange_platform =
    (if truthyS obj.exchange_platform then obj.exchange_platform else x.exchange_platform) ∧
  y.type_of_issue =
    (if truthyS obj.type_of_issue then obj.type_of_issue else x.type_of_issue) ∧
  y.type_of_issue_long =
    (if truthyS obj.type_of_issue_long then obj.type_of_issue_long else x.type_of_issue_long) ∧
  y.issue_status =
    (if truthyS obj.issue_status then obj.issue_status else x.issue_status) ∧
  y.security_type =
    (if truthyS obj.security_type then obj.security_type else x.security_type) ∧
  y.offer_price_raw =
    (if truthyS obj.offer_price_raw then obj.offer_price_raw else x.offer_price_raw) ∧
  y.price_min = (if truthyQ obj.price_min then obj.price_min else x.price_min) ∧
  y.price_max = (if truthyQ obj.price_max then obj.price_max else x.price_max) ∧
  y.face_value = (if truthyS obj.face_value then obj.face_value else x.face_value) ∧
  y.list_url = (if truthyS obj.list_url then obj.list_url else x.list_url)

/-- Claim C5: when an upsert matches an existing row, only the allow-listed
scalar columns change, each only under a truthy incoming value (an empty or
null incoming value never erases stored data), the payload is replaced in
full by the latest scrape, the identity columns of the matched row stay
unchanged, and every non-matching row is left exactly as it was. -/
theorem claim_c5_partial_overwrite (r2base : String) (it : Item) (db : DB)
    (h : identityCount db (mkIssueRow r2base it) = 1) :
    ∃ db', process_item r2base db it = Except.ok db' ∧
      List.Forall₂ (fun x y =>
        if sameIdentity x (mkIssueRow r2base it) = true
        then UpdSpec x y (mkIssueRow r2base it) else y = x) db db' := by
  have hcount : identityCount db (mkIssueRow r2base it) =
      (db.filter (fun r => sameIdentity r (mkIssueRow r2base it))).length := by
    simp [identityCount, List.countP_eq_length_filter]
  obtain ⟨x, hF⟩ := List.length_eq_one.mp (hcount ▸ h)
  refine ⟨db.map (fun r =>
    if sameIdentity r (mkIssueRow r2base it) then applyUpdate r (mkIssueRow r2base it) else r),
    ?_, ?_⟩
  · simp only [process_item, hF]
  · rw [List.forall₂_map_right_iff]
    refine List.forall₂_same.mpr ?_
    intro r _
    by_cases hr : sameIdentity r (mkIssueRow r2base it) = true
    · rw [if_pos hr, if_pos hr]
      unfold UpdSpec applyUpdate
      refine ⟨rfl, rfl, rfl, rfl, rfl, rfl, rfl, rfl, rfl, rfl, rfl, rfl, rfl, rfl, rfl⟩
    · rw [if_neg hr, if_neg hr]

/-- Claim C5 witness: re-upserting the concrete item against a database
already holding its row satisfies the field-level update contract. -/
theorem claim_c5_partial_overwrite_witness :
    identityCount [mkIssueRow "https://cdn" itemEx] (mkIssueRow "https://cdn" itemEx) = 1 ∧
    ∃ db', process_item "https://cdn" [mkIssueRow "https://cdn" itemEx] itemEx = Except.ok db' ∧
      List.Forall₂ (fun x y =>
        if sameIdentity x (mkIssueRow "https://cdn" itemEx) = true
        then UpdSpec x y (mkIssueRow "https://cdn" itemEx) else y = x)
        [mkIssueRow "https://cdn" itemEx] db' :=
  ⟨by decide, claim_c5_partial_overwrite "https://cdn" itemEx [mkIssueRow "https://cdn" itemEx]
    (by decide)⟩

/-! ### Claim C10 -/

theorem mkDate_valid {y m d : Nat} {dd : PyDate} (h : mkDate y m d = some dd) :
    isValidDate dd.year dd.month dd.day = true := by
  unfold mkDate at h
  split at h
  · cases h
    assumption
  · cases h

theorem fmtYmd_valid : ∀ {l : List Char} {dd : PyDate}, fmtYmd l = some dd →
    isValidDate dd.year dd.month dd.day = true := by
  intro l dd h
  unfold fmtYmd at h
  repeat' split at h
  all_goals first
    | cases h
    | exact mkDate_valid h

theorem fmtDayMonthYear_valid (pM : List Char → Option (Nat × List Char))
    (pS : List Char → Option (List Char)) :
    ∀ {l : List Char} {dd : PyDate}, fmtDayMonthYear pM pS l = some dd →
      isValidDate dd.year dd.month dd.day = true := by
  intro l dd h
  unfold fmtDayMonthYear at h
  repeat' split at h
  all_goals first
    | cases h
    | exact mkDate_valid h

theorem fromIsoDate_valid : ∀ {l : List Char} {dd : PyDate}, fromIsoDate l = some dd →
    isValidDate dd.year dd.month dd.day = true := by
  intro l dd h
  unfold fromIsoDate at h
  repeat' split at h
  all_goals first
    | cases h
    | exact mkDate_valid h

theorem to_iso_date_valid (s : Option String) :
    to_iso_date s = none ∨
      ∃ d, to_iso_date s = some d ∧ isValidDate d.year d.month d.day = true := by
  rcases s with _ | str
  · exact Or.inl rfl
  · unfold to_iso_date
    by_cases he : str = ""
    · simp [he]
    · simp only [he, if_false]
      rcases h1 : fmtYmd (pystrip str.data) with _ | d
      · rcases h2 : fmtDmyDash (pystrip str.data) with _ | d
        · rcases h3 : fmtDmySlash (pystrip str.data) with _ | d
          · rcases h4 : fmtDbY (pystrip str.data) with _ | d
            · rcases h5 : fmtDBigY (pystrip str.data) with _ | d
              · rcases h6 : fromIsoDate (pystrip str.data) with _ | d
                · exact Or.inl (by simp [Option.orElse, h1, h2, h3, h4, h5, h6])
                · exact Or.inr ⟨d, by simp [Option.orElse, h1, h2, h3, h4, h5, h6],
                    fromIsoDate_valid h6⟩
              · exact Or.inr ⟨d, by simp [Option.orElse, h1, h2, h3, h4, h5],
                  fmtDayMonthYear_valid _ _ h5⟩
            · exact Or.inr ⟨d, by simp [Option.orElse, h1, h2, h3, h4],
                fmtDayMonthYear_valid _ _ h4⟩
          · exact Or.inr ⟨d, by simp [Option.orElse, h1, h2, h3],
              fmtDayMonthYear_valid _ _ h3⟩
        · exact Or.inr ⟨d, by simp [Option.orElse, h1, h2], fmtDayMonthYear_valid _ _ h2⟩
      · exact Or.inr ⟨d, by simp [Option.orElse, h1], fmtYmd_valid h1⟩

/-- Claim C10: date normalization is total — `to_iso_date` never raises: it
returns a calendar-valid date for inputs it parses and `None` for everything
else (empty input included); each of its advertised formats parses; and a
record whose date text is unparseable is persisted with a null date inside
its identity key instead of failing. -/
theorem claim_c10_date_normalization :
    (∀ s : Option String, to_iso_date s = none ∨
      ∃ d, to_iso_date s = some d ∧ isValidDate d.year d.month d.day = true) ∧
    (∀ (r2base : String) (it : Item) (db : DB),
      to_iso_date it.start_date = none →
      identityCount db (mkIssueRow r2base it) = 0 →
      process_item r2base db it = Except.ok (db ++ [mkIssueRow r2base it]) ∧
      (mkIssueRow r2base it).start_date = none) ∧
    to_iso_date none = none ∧
    to_iso_date (some "") = none ∧
    to_iso_date (some "not a date") = none ∧
    to_iso_date (some "31-02-2024") = none ∧
    to_iso_date (some "2024-01-15") = some ⟨2024, 1, 15⟩ ∧
    to_iso_date (some "15-01-2024") = some ⟨2024, 1, 15⟩ ∧
    to_iso_date (some "15/01/2024") = some ⟨2024, 1, 15⟩ ∧
    to_iso_date (some "15 Jan 2024") = some ⟨2024, 1, 15⟩ ∧
    to_iso_date (some "15 January 2024") = some ⟨2024, 1, 15⟩ := by
  refine ⟨to_iso_date_valid, ?_, by decide, by decide, by decide, by decide, by decide,
    by decide, by decide, by decide, by decide⟩
  intro r2base it db hdate hcount
  have hF : db.filter (fun r => sameIdentity r (mkIssueRow r2base it)) = [] := by
    have := hcount
    unfold identityCount at this
    rw [List.countP_eq_length_filter] at this
    exact List.length_eq_zero.mp this
  constructor
  · simp only [process_item, hF]
  · show to_iso_date it.start_date = none
    exact hdate

/-- A concrete item whose scraped start-date text is unparseable. -/
def itemBadDate : Item :=
  { itemEx with start_date := some "sometime soon" }

/-- Claim C10 witness: the unparseable date text becomes a null date and the
record is still inserted. -/
theorem claim_c10_date_normalization_witness :
    to_iso_date (some "sometime soon") = none ∧
    process_item "" [] itemBadDate = Except.ok ([] ++ [mkIssueRow "" itemBadDate]) ∧
    (mkIssueRow "" itemBadDate).start_date = none :=
  ⟨by decide,
    (claim_c10_date_normalization.2.1 "" itemBadDate [] (by decide) (by decide)).1,
    (claim_c10_date_normalization.2.1 "" itemBadDate [] (by decide) (by decide)).2⟩

/-! ### Claim C9 -/

theorem wordBytes_lt (w : Nat) : ∀ b ∈ wordBytes w, b < 256 := by
  intro b hb
  simp [wordBytes] at hb
  rcases hb with h | h | h | h <;> subst h <;> exact Nat.mod_lt _ (by norm_num)

theorem sha1Digest_bytes_lt (msg : List Nat) : ∀ b ∈ sha1Digest msg, b < 256 := by
  intro b hb
  unfold sha1Digest at hb
  rw [List.mem_flatten] at hb
  obtain ⟨l, hl, hbl⟩ := hb
  rw [List.mem_map] at hl
  obtain ⟨w, _, hw⟩ := hl
  exact wordBytes_lt w b (hw ▸ hbl)

theorem sha1Digest_length (msg : List Nat) : (sha1Digest msg).length = 20 := by
  simp [sha1Digest, wordBytes]

theorem flatten_byteHex_length : ∀ l : List Nat, ((l.map byteHex).flatten).length = 2 * l.length := by
  intro l
  induction l with
  | nil => simp
  | cons b rest ih =>
    simp [byteHex, ih]
    omega

theorem hexDigit_spec : ∀ n, n < 16 →
    ((hexDigit n).isDigit = true ∨ ('a' ≤ hexDigit n ∧ hexDigit n ≤ 'f')) := by
  decide

theorem sha1hex6_spec (s : String) :
    (sha1hex6 s).length = 6 ∧
    ∀ c ∈ (sha1hex6 s).data, c.isDigit = true ∨ ('a' ≤ c ∧ c ≤ 'f') := by
  constructor
  · show (sha1hex6 s).data.length = 6
    unfold sha1hex6
    rw [flatten_byteHex_length, List.length_take, sha1Digest_length]
    decide
  · intro c hc
    unfold sha1hex6 at hc
    rw [List.mem_flatten] at hc
    obtain ⟨l, hl, hcl⟩ := hc
    rw [List.mem_map] at hl
    obtain ⟨b, hb, hbl⟩ := hl
    have hb256 : b < 256 :=
      sha1Digest_bytes_lt (strBytes s) b (List.mem_of_mem_take hb)
    subst hbl
    simp only [byteHex, List.mem_cons, List.not_mem_nil, or_false] at hcl
    rcases hcl with h | h
    · exact h ▸ hexDigit_spec (b / 16) (Nat.div_lt_of_lt_mul (by omega))
    · exact h ▸ hexDigit_spec (b % 16) (Nat.mod_lt _ (by norm_num))

theorem guess_ext_spec (url : String) :
    guess_ext_from_url url ∈ [".pdf", ".docx", ".xlsx", ".xls", ".bin"] ∧
    ((".pdf".data.isSuffixOf (lowerPathOf url) = false ∧
      ".docx".data.isSuffixOf (lowerPathOf url) = false ∧
      ".xlsx".data.isSuffixOf (lowerPathOf url) = false ∧
      ".xls".data.isSuffixOf (lowerPathOf url) = false) →
      guess_ext_from_url url = ".bin") := by
  unfold guess_ext_from_url
  split_ifs with h1 h2 h3 h4 <;> simp_all

theorem mem_of_mem_collapseAux (rep : Char) (p : Char → Bool) :
    ∀ (l : List Char) (b : Bool), (∀ c ∈ l, p c = true ∨ isPySpace c = true) →
      ∀ c ∈ collapseAux rep b l, p c = true ∨ c = rep := by
  intro l
  induction l with
  | nil => intro b _ c hc; cases hc
  | cons a rest ih =>
    intro b hl c hc
    by_cases ha : isPySpace a = true
    · rcases b with _ | _
      · rw [collapseAux, if_pos ha] at hc
        simp only [Bool.false_eq_true, if_false] at hc
        rcases List.mem_cons.mp hc with hc | hc
        · exact Or.inr hc
        · exact ih true (fun x hx => hl x (List.mem_cons_of_mem a hx)) c hc
      · rw [collapseAux, if_pos ha, if_pos rfl] at hc
        exact ih true (fun x hx => hl x (List.mem_cons_of_mem a hx)) c hc
    · rw [collapseAux, if_neg ha] at hc
      rcases List.mem_cons.mp hc with hc | hc
      · subst hc
        rcases hl c (List.mem_cons_self c rest) with h | h
        · exact Or.inl h
        · exact absurd h ha
      · exact ih false (fun x hx => hl x (List.mem_cons_of_mem a hx)) c hc

theorem mem_slugifyCore (s : Option String) (c : Char) (hc : c ∈ slugifyCore s) :
    c ∈ collapseWs '-'
      ((pystrip ((s.getD "").data)).filter
        (fun c => isWordChar c || isPySpace c || c = '-')) := by
  unfold slugifyCore at hc
  rw [List.mem_reverse] at hc
  have hc2 := (List.dropWhile_sublist (p := fun x => decide (x = '-'))).subset hc
  rw [List.mem_reverse] at hc2
  exact (List.dropWhile_sublist (p := fun x => decide (x = '-'))).subset hc2

theorem slugify_chars (s : Option String) :
    (slugify s).data ≠ [] ∧ ∀ c ∈ (slugify s).data, isWordChar c = true ∨ c = '-' := by
  unfold slugify
  by_cases h : slugifyCore s = []
  · rw [if_pos h]
    exact ⟨by decide, by decide⟩
  · rw [if_neg h]
    refine ⟨h, ?_⟩
    intro c hc
    have hc3 := mem_slugifyCore s c hc
    have := mem_of_mem_collapseAux '-' (fun c => isWordChar c || c = '-')
      ((pystrip ((s.getD "").data)).filter
        (fun c => isWordChar c || isPySpace c || c = '-'))
      false ?_ c hc3
    · rcases this with h' | h'
      · rcases Bool.or_eq_true_iff.mp h' with h' | h'
        · exact Or.inl h'
        · exact Or.inr (by simpa using h')
      · exact Or.inr h'
    · intro x hx
      have hx2 := (List.mem_filter.mp hx).2
      rcases Bool.or_eq_true_iff.mp hx2 with h' | h'
      · rcases Bool.or_eq_true_iff.mp h' with h' | h'
        · exact Or.inl (by simp [h'])
        · exact Or.inr h'
      · exact Or.inl (by simp [h'])

/-- Claim C9: the attachment storage key is deterministic and has the shape
`issues/<slug(entity)>/<ISO date | "undated">/<slug(label)>_<6 lowercase hex
characters of the URL's SHA-1><known extension or ".bin">`; slug outputs are
non-empty and contain only word characters and hyphens (whitespace collapsed
to hyphens, other characters stripped), empty slug input falls back to the
literal `"unknown"`, and the extension defaults to `".bin"` whenever the URL
path ends in none of the known suffixes. -/
theorem claim_c9_file_key (ctx : FileCtx) (label : Option String) (url : String) :
    (∃ entity lbl dateF,
      file_path ctx label url =
        "issues/" ++ slugify (some entity) ++ "/" ++ dateF ++ "/" ++
          slugify (some lbl) ++ "_" ++ sha1hex6 url ++ guess_ext_from_url url ∧
      (dateF = "undated" ∨ ∃ d, to_iso_date ctx.dt = some d ∧ dateF = isoformat d)) ∧
    ((sha1hex6 url).length = 6 ∧
      ∀ c ∈ (sha1hex6 url).data, c.isDigit = true ∨ ('a' ≤ c ∧ c ≤ 'f')) ∧
    guess_ext_from_url url ∈ [".pdf", ".docx", ".xlsx", ".xls", ".bin"] ∧
    ((".pdf".data.isSuffixOf (lowerPathOf url) = false ∧
      ".docx".data.isSuffixOf (lowerPathOf url) = false ∧
      ".xlsx".data.isSuffixOf (lowerPathOf url) = false ∧
      ".xls".data.isSuffixOf (lowerPathOf url) = false) →
      guess_ext_from_url url = ".bin") ∧
    (∀ s, (slugify s).data ≠ [] ∧ ∀ c ∈ (slugify s).data, isWordChar c = true ∨ c = '-') ∧
    slugify (some "") = "unknown" ∧
    (∀ (ctx2 : FileCtx) (label2 : Option String) (url2 : String),
      ctx2 = ctx → label2 = label → url2 = url →
      file_path ctx2 label2 url2 = file_path ctx label url) := by
  refine ⟨?_, sha1hex6_spec url, (guess_ext_spec url).1, (guess_ext_spec url).2,
    slugify_chars, by decide, ?_⟩
  · refine ⟨companyOf ctx, labelOf label, dateFolderOf ctx.dt, rfl, ?_⟩
    rcases hdt : to_iso_date ctx.dt with _ | d
    · exact Or.inl (by simp [dateFolderOf, hdt])
    · exact Or.inr ⟨d, rfl, by simp [dateFolderOf, hdt]⟩
  · intro ctx2 label2 url2 h1 h2 h3
    rw [h1, h2, h3]

/-- Claim C9 witness: a URL with an unknown suffix gets the generic binary
extension and a 6-character hash. -/
theorem claim_c9_file_key_witness :
    guess_ext_from_url "https://a.b/c/d.txt" = ".bin" ∧
    (sha1hex6 "https://a.b/c/d.txt").length = 6 :=
  ⟨(claim_c9_file_key ⟨some "ACME Ltd.", some "12 Jan 2024"⟩ (some "Offer Doc")
      "https://a.b/c/d.txt").2.2.2.1 (by decide),
    (claim_c9_file_key ⟨some "ACME Ltd.", some "12 Jan 2024"⟩ (some "Offer Doc")
      "https://a.b/c/d.txt").2.1.1⟩

end BseScraper
